import Mathlib

/-!
Shallow embedding of the VideoMetaAngular application core
(`src/unnamed/part_000`, an Angular component, and
`src/src/services/gemini.service.ts`).

The component's signals become fields of `AppState`; signal `.set`/`.update`
calls become functional record updates.  The asynchronous per-item work
(frame extraction followed by metadata inference) is modelled by an
environment `Env` giving the outcome of each collaborator call, and the
`processQueue` while-loop becomes a fuel-indexed recursion (each iteration
increments `currentIndex`, so `videos.length - currentIndex` fuel is exact).
Media decoding (`extractFrames`, `extractSingleFrame`) is modelled over an
abstract `VideoResource` (load success flag, duration, a capture function),
and the seek/capture event order of the extraction loop is recorded as an
explicit trace.
-/

/-- Mirror of the `status` union type of `VideoMetadata`
(`pending | processing | completed | failed`). -/
inductive Status
  | pending
  | processing
  | completed
  | failed
  deriving DecidableEq, Repr

/-- Mirror of the `VideoMetadata` interface.  The opaque `id: string`
(a UUID) is modelled as a `Nat`; the `file: File` object is represented by
its name (the only part of it the queue/CSV code reads). -/
structure VideoMetadata where
  id : Nat
  fileName : String
  thumbnail : Option String
  status : Status
  title : String
  keywords : List String
  errorMessage : Option String
  deriving DecidableEq, Repr

/-- The component's signal state: `videos`, `isProcessing`, `isPaused`,
`currentIndex`, and `apiKeyMissing` (set once from
`!geminiService.isConfigured()`). -/
structure AppState where
  videos : List VideoMetadata
  isProcessing : Bool
  isPaused : Bool
  currentIndex : Nat
  apiKeyMissing : Bool
  deriving DecidableEq, Repr

/-- The component's initial signal values: empty queue, not processing,
not paused, cursor 0. -/
def initialState (apiKeyMissing : Bool) : AppState :=
  { videos := [], isProcessing := false, isPaused := false,
    currentIndex := 0, apiKeyMissing := apiKeyMissing }

/-- Model of `startProcessing()`: rejected (alert, early return, no state change)
when the API key is missing; otherwise sets `isProcessing := true`,
`isPaused := false`. -/
def startProcessing (s : AppState) : AppState :=
  if s.apiKeyMissing then s
  else { s with isProcessing := true, isPaused := false }

/-- Model of `pauseProcessing()`: `isPaused.set(true)`. -/
def pauseProcessing (s : AppState) : AppState :=
  { s with isPaused := true }

/-- Model of `resumeProcessing()`: `isPaused.set(false)`. -/
def resumeProcessing (s : AppState) : AppState :=
  { s with isPaused := false }

/-- Model of `stopProcessing()`: clears both flags and forces the cursor to the end
of the queue. -/
def stopProcessing (s : AppState) : AppState :=
  { s with isProcessing := false, isPaused := false,
           currentIndex := s.videos.length }

/-- Model of `retryFailed()`: resets the cursor to 0, then calls `startProcessing()`. -/
def retryFailed (s : AppState) : AppState :=
  startProcessing { s with currentIndex := 0 }

/-- Model of `clearAll()`: empties the queue and resets all processing state. -/
def clearAll (s : AppState) : AppState :=
  { s with videos := [], currentIndex := 0,
           isProcessing := false, isPaused := false }

/-- The fresh `VideoMetadata` record built in `onFileSelected` for each
accepted video file. -/
def mkVideo (id : Nat) (name : String) : VideoMetadata :=
  { id := id, fileName := name, thumbnail := none, status := .pending,
    title := "", keywords := [], errorMessage := none }

/-- Model of `onFileSelected`: appends one pending item per accepted video file and,
if not already processing, calls `startProcessing()`.  (Thumbnail
generation, fired here per item, is modelled separately as
`generateThumbnail`.) -/
def submitVideos (s : AppState) (files : List (Nat × String)) : AppState :=
  let s2 := { s with videos := s.videos ++ files.map fun p => mkVideo p.1 p.2 }
  if s2.isProcessing then s2 else startProcessing s2

/-- Model of `updateVideoStatus`: maps over the queue, setting `status` and clearing
`errorMessage` on the item(s) with the given id. -/
def updateVideoStatus (videos : List VideoMetadata) (id : Nat)
    (status : Status) : List VideoMetadata :=
  videos.map fun v =>
    if v.id = id then { v with status := status, errorMessage := none } else v

/-- Model of `updateVideoResult`: maps over the queue, setting `status`, `title`,
`keywords` and `errorMessage` on the item(s) with the given id. -/
def updateVideoResult (videos : List VideoMetadata) (id : Nat)
    (status : Status) (title : String) (keywords : List String)
    (error : Option String) : List VideoMetadata :=
  videos.map fun v =>
    if v.id = id then
      { v with status := status, title := title, keywords := keywords,
               errorMessage := error }
    else v

/-- Outcomes of the two collaborator calls made per item:
`extract id` is the result of `extractFrames(video.file, 8)` for the item
with that id (frames on success, the thrown error message on failure), and
`infer frames` is the result of the raw Gemini API call inside
`generateMetadataFromFrames`.  `configured` mirrors `this.ai !== null`. -/
structure Env where
  configured : Bool
  extract : Nat → Except String (List String)
  infer : List String → Except String (String × List String)

/-- Model of `GeminiService.generateMetadataFromFrames`: throws
"Gemini API key is not configured." when unconfigured; otherwise wraps any
failure of the underlying call as
"Failed to generate metadata from Gemini API.". -/
def generateMetadataFromFrames (env : Env) (frames : List String) :
    Except String (String × List String) :=
  if env.configured then
    match env.infer frames with
    | .ok r => .ok r
    | .error _ => .error "Failed to generate metadata from Gemini API."
  else .error "Gemini API key is not configured."

/-- The combined outcome of `await extractFrames(...)` followed by
`await generateMetadataFromFrames(...)` for the item with the given id:
the first failure wins, exactly as the first rejected `await` inside the
`try` block reaches the `catch`. -/
def itemOutcome (env : Env) (id : Nat) : Except String (String × List String) :=
  match env.extract id with
  | .error msg => .error msg
  | .ok frames => generateMetadataFromFrames env frames

/-- The body of the `try`/`catch` in `processQueue` for an eligible item
`v`: set status `processing` (clearing the error), then record either the
completed result or the failure. -/
def stepItem (env : Env) (videos : List VideoMetadata) (v : VideoMetadata) :
    List VideoMetadata :=
  let vids := updateVideoStatus videos v.id .processing
  match itemOutcome env v.id with
  | .error msg => updateVideoResult vids v.id .failed "" [] (some msg)
  | .ok r => updateVideoResult vids v.id .completed r.1 r.2 none

/-- One-function form of `stepItem`'s per-element effect (the composition of
the two `map`s over the queue). -/
def stepFn (env : Env) (id : Nat) (w : VideoMetadata) : VideoMetadata :=
  if w.id = id then
    match itemOutcome env id with
    | .error msg =>
        { w with status := .failed, title := "", keywords := [],
                 errorMessage := some msg }
    | .ok r =>
        { w with status := .completed, title := r.1, keywords := r.2,
                 errorMessage := none }
  else w

/-- The `while` loop of `processQueue`, with fuel.  Each iteration checks
the loop condition (`currentIndex < videos.length && isProcessing &&
!isPaused`), reads the item under the cursor, runs the eligible-item step,
and advances the cursor.  The second component accumulates the ids of the
items for which frame extraction/inference was actually requested. -/
def processQueueLoop (env : Env) :
    Nat → AppState → List Nat → AppState × List Nat
  | 0, s, req => (s, req)
  | fuel + 1, s, req =>
    if h : s.currentIndex < s.videos.length ∧ s.isProcessing ∧ ¬s.isPaused then
      let v := s.videos.get ⟨s.currentIndex, h.1⟩
      if v.status = .pending ∨ v.status = .failed then
        processQueueLoop env fuel
          { s with videos := stepItem env s.videos v,
                   currentIndex := s.currentIndex + 1 }
          (req ++ [v.id])
      else
        processQueueLoop env fuel
          { s with currentIndex := s.currentIndex + 1 } req
    else (s, req)

/-- Model of `processQueue()`: run the loop to completion, then clear `isProcessing`
when the cursor reached the end of the queue (natural drain).  The loop
advances the cursor by one per iteration and never grows the queue, so
`videos.length - currentIndex` fuel is exact. -/
def processQueue (env : Env) (s : AppState) : AppState × List Nat :=
  let p := processQueueLoop env (s.videos.length - s.currentIndex) s []
  (if p.1.videos.length ≤ p.1.currentIndex
   then { p.1 with isProcessing := false } else p.1, p.2)

/-- Abstract model of a browser video element bound to one file: whether
the file loads, its reported duration, and the still image produced by a
capture at a given playback position. -/
structure VideoResource where
  loadOk : Bool
  duration : ℚ
  captureAt : ℚ → String

/-- Events of the frame-extraction loop: a seek request
(`video.currentTime = t`) and the completion of the i-th capture (draw +
encode after the corresponding `onseeked`). -/
inductive ExtractEvent
  | seek (t : ℚ)
  | capture (i : Nat)
  deriving DecidableEq, Repr

/-- The `for (let i = 1; i <= frameCount; i++)` loop of `extractFrames`:
seek to `interval * i`, await `onseeked`, capture, repeat.  `n` is the
number of iterations left and `i` the current loop counter. -/
def extractLoop (res : VideoResource) (interval : ℚ) :
    Nat → Nat → List ExtractEvent × List String
  | 0, _ => ([], [])
  | n + 1, i =>
    let t := interval * i
    let rest := extractLoop res interval n (i + 1)
    (.seek t :: .capture i :: rest.1, res.captureAt t :: rest.2)

/-- Model of `extractFrames(file, frameCount)`: on `onloadedmetadata`, compute
`interval = duration / (frameCount + 1)` and run the capture loop from
`i = 1`; on `onerror`, reject.  Returns the event trace together with the
materialized frames. -/
def extractFrames (res : VideoResource) (frameCount : Nat) :
    Except String (List ExtractEvent × List String) :=
  if res.loadOk then
    .ok (extractLoop res (res.duration / (frameCount + 1)) frameCount 1)
  else .error "Failed to load video file."

/-- Model of `extractSingleFrame(file, timeInSeconds)`: seeks to
`Math.min(timeInSeconds, video.duration)` and captures one frame; rejects
when the file does not load.  Returns the requested seek position together
with the frame. -/
def extractSingleFrame (res : VideoResource) (timeInSeconds : ℚ) :
    Except String (ℚ × String) :=
  if res.loadOk then
    let t := min timeInSeconds res.duration
    .ok (t, res.captureAt t)
  else .error "Failed to load video file for thumbnail."

/-- The queue update performed by `generateThumbnail` on success: set only
the `thumbnail` field of the item with the given id. -/
def setThumbnail (s : AppState) (id : Nat) (frame : String) : AppState :=
  { s with videos := s.videos.map fun v =>
      if v.id = id then { v with thumbnail := some frame } else v }

/-- Model of `generateThumbnail(video)`: `extractSingleFrame(file, 1)`; on success
store the frame as the item's thumbnail, on failure only log (no state
change). -/
def generateThumbnail (s : AppState) (id : Nat) (res : VideoResource) :
    AppState :=
  match extractSingleFrame res 1 with
  | .ok p => setThumbnail s id p.2
  | .error _ => s

/-- Character-level rendering of `str.replace(/"/g, '""')`: every double
quote is replaced by two double quotes (the pattern is a single character,
so global replacement is exactly this pointwise expansion). -/
def doubleQuotes : List Char → List Char
  | [] => []
  | c :: rest =>
    if c = '\"' then '\"' :: '\"' :: doubleQuotes rest
    else c :: doubleQuotes rest

/-- The field-escaping closure of `downloadCSV`:
`str => '"' + str.replace(/"/g, '""') + '"'`. -/
def escapeCSV (str : String) : String :=
  "\"" ++ String.mk (doubleQuotes str.data) ++ "\""

/-- One CSV row of `downloadCSV`: the three escaped fields joined with a
comma; the keywords are joined with ", " before escaping. -/
def csvRow (v : VideoMetadata) : String :=
  String.intercalate ","
    [escapeCSV v.fileName, escapeCSV v.title,
     escapeCSV (String.intercalate ", " v.keywords)]

/-- Model of `downloadCSV()`: filter to completed items, return early when there are
none, otherwise build header plus newline-joined rows.  The produced CSV
text is returned (the Blob/anchor download mechanics are outside the
model). -/
def downloadCSV (videos : List VideoMetadata) : Option String :=
  let completed := videos.filter fun v => v.status = .completed
  if completed.length = 0 then none
  else some ("Filename,Title,Keywords\n"
    ++ String.intercalate "\n" (completed.map csvRow))

/-! ## Helper lemmas about the per-item step -/

theorem stepItem_eq_map (env : Env) (vids : List VideoMetadata)
    (v : VideoMetadata) :
    stepItem env vids v = vids.map (stepFn env v.id) := by
  unfold stepItem stepFn updateVideoStatus updateVideoResult
  cases h : itemOutcome env v.id <;>
    simp [List.map_map, Function.comp] <;>
    (intro w _; by_cases hw : w.id = v.id <;> simp [hw])

theorem stepFn_id (env : Env) (n : Nat) (w : VideoMetadata) :
    (stepFn env n w).id = w.id := by
  unfold stepFn
  by_cases hw : w.id = n <;> cases h : itemOutcome env n <;> simp [hw, h]

theorem stepFn_of_ne (env : Env) (n : Nat) (w : VideoMetadata)
    (hw : w.id ≠ n) : stepFn env n w = w := by
  simp [stepFn, hw]

/-! ## C2: unconfigured start request is rejected without state change -/

/-- C2.  When the inference client is unconfigured (`apiKeyMissing`), a
start request is rejected and changes no state: the whole `AppState` —
`isProcessing`, `isPaused`, the cursor and every queued item — is exactly
as before. -/
theorem startProcessing_rejected_when_unconfigured (s : AppState)
    (h : s.apiKeyMissing = true) :
    startProcessing s = s ∧
    (startProcessing s).isProcessing = s.isProcessing ∧
    (startProcessing s).isPaused = s.isPaused ∧
    (startProcessing s).currentIndex = s.currentIndex ∧
    (startProcessing s).videos = s.videos := by
  have he : startProcessing s = s := by simp [startProcessing, h]
  exact ⟨he, by rw [he], by rw [he], by rw [he], by rw [he]⟩

/-- A state with the key missing and one freshly submitted (pending) item. -/
def sUnconfigured : AppState :=
  submitVideos (initialState true) [(0, "a.mp4")]

theorem startProcessing_rejected_witness :
    startProcessing sUnconfigured = sUnconfigured ∧
    sUnconfigured.isProcessing = false ∧
    (sUnconfigured.videos.map fun v => v.status) = [.pending] := by
  refine ⟨(startProcessing_rejected_when_unconfigured sUnconfigured
    (by decide)).1, by decide, by decide⟩

/-! ## C7: stop and pause are idempotent -/

/-- C7.  Invoking `stopProcessing` twice in a row leaves the state identical
to the state after the first stop, and likewise for `pauseProcessing`. -/
theorem stop_pause_idempotent (s : AppState) :
    stopProcessing (stopProcessing s) = stopProcessing s ∧
    pauseProcessing (pauseProcessing s) = pauseProcessing s :=
  ⟨rfl, rfl⟩

/-! ## C10: unconfigured retry still resets the cursor -/

/-- C10.  When the inference client is unconfigured, `retryFailed` still
resets the cursor to 0 even though the embedded start request is rejected:
the only change to the state is the cursor, so `isProcessing` and
`isPaused` keep their (false) values — the rejected retry is not rolled
back. -/
theorem retryFailed_unconfigured_resets_cursor (s : AppState)
    (h : s.apiKeyMissing = true) :
    retryFailed s = { s with currentIndex := 0 } ∧
    (retryFailed s).currentIndex = 0 ∧
    (retryFailed s).isProcessing = s.isProcessing ∧
    (retryFailed s).isPaused = s.isPaused := by
  have he : retryFailed s = { s with currentIndex := 0 } := by
    simp [retryFailed, startProcessing, h]
  exact ⟨he, by rw [he], by rw [he], by rw [he]⟩

/-- An idle, unconfigured state with one failed item and a nonzero cursor. -/
def sFailedUnconfigured : AppState :=
  { videos := [{ id := 0, fileName := "a.mp4", thumbnail := none,
                 status := .failed, title := "", keywords := [],
                 errorMessage := some "boom" }],
    isProcessing := false, isPaused := false, currentIndex := 1,
    apiKeyMissing := true }

theorem retryFailed_unconfigured_witness :
    (retryFailed sFailedUnconfigured).currentIndex = 0 ∧
    (retryFailed sFailedUnconfigured).isProcessing = false ∧
    (retryFailed sFailedUnconfigured).isPaused = false := by
  obtain ⟨-, h1, h2, h3⟩ :=
    retryFailed_unconfigured_resets_cursor sFailedUnconfigured (by decide)
  exact ⟨h1, h2.trans (by decide), h3.trans (by decide)⟩

/-! ## C9: thumbnail generation is non-fatal and seeks min(1, duration) -/

/-- C9.  A failure of thumbnail generation changes nothing at all (the
state is returned unchanged, so the item's status, title, keywords and
errorMessage are exactly what they would be had it not run, and nothing
propagates to the queue or controller); on success the requested seek
position is `min 1 duration`, and only the `thumbnail` field of the queue
can differ. -/
theorem generateThumbnail_nonfatal (s : AppState) (id : Nat)
    (res : VideoResource) :
    (res.loadOk = false → generateThumbnail s id res = s) ∧
    (res.loadOk = true →
      extractSingleFrame res 1
        = .ok (min 1 res.duration, res.captureAt (min 1 res.duration)) ∧
      (generateThumbnail s id res).isProcessing = s.isProcessing ∧
      (generateThumbnail s id res).isPaused = s.isPaused ∧
      (generateThumbnail s id res).currentIndex = s.currentIndex ∧
      ((generateThumbnail s id res).videos.map
          fun v => (v.id, v.status, v.title, v.keywords, v.errorMessage))
        = s.videos.map
            fun v => (v.id, v.status, v.title, v.keywords, v.errorMessage)) := by
  constructor
  · intro h
    simp [generateThumbnail, extractSingleFrame, h]
  · intro h
    have hx : extractSingleFrame res 1
        = .ok (min 1 res.duration, res.captureAt (min 1 res.duration)) := by
      simp [extractSingleFrame, h]
    refine ⟨hx, ?_⟩
    have hg : generateThumbnail s id res
        = setThumbnail s id (res.captureAt (min 1 res.duration)) := by
      simp [generateThumbnail, hx]
    rw [hg]
    refine ⟨rfl, rfl, rfl, ?_⟩
    simp only [setThumbnail, List.map_map]
    apply List.map_congr_left
    intro w _
    by_cases hw : w.id = id <;> simp [hw, Function.comp]

/-- A video resource that fails to load. -/
def resBad : VideoResource :=
  { loadOk := false, duration := 0, captureAt := fun _ => "" }

/-- A video resource of duration 5 whose every capture yields "thumb". -/
def resGood : VideoResource :=
  { loadOk := true, duration := 5, captureAt := fun _ => "thumb" }

theorem generateThumbnail_nonfatal_witness :
    generateThumbnail sFailedUnconfigured 0 resBad = sFailedUnconfigured ∧
    extractSingleFrame resGood 1 = .ok (1, "thumb") := by
  refine ⟨(generateThumbnail_nonfatal sFailedUnconfigured 0 resBad).1 rfl, ?_⟩
  have h := ((generateThumbnail_nonfatal sFailedUnconfigured 0 resGood).2 rfl).1
  rw [h]
  norm_num [resGood]

/-! ## C6: CSV export format -/

/-- C6.  The CSV export is the header `Filename,Title,Keywords` followed by
exactly one row per completed item; each row consists of the three fields
each wrapped in double quotes with internal double quotes doubled, the
keywords joined with ", " before escaping; in particular the title
`He said "hi"` escapes to `"He said ""hi"""`. -/
theorem downloadCSV_format (videos : List VideoMetadata)
    (h : videos.filter (fun v => v.status = .completed) ≠ []) :
    downloadCSV videos
      = some ("Filename,Title,Keywords\n" ++ String.intercalate "\n"
          ((videos.filter fun v => v.status = .completed).map csvRow)) ∧
    ((videos.filter fun v => v.status = .completed).map csvRow).length
      = (videos.filter fun v => v.status = .completed).length ∧
    (∀ v : VideoMetadata,
      csvRow v = escapeCSV v.fileName ++ "," ++ escapeCSV v.title ++ ","
        ++ escapeCSV (String.intercalate ", " v.keywords)) ∧
    escapeCSV "He said \"hi\"" = "\"He said \"\"hi\"\"\"" := by
  refine ⟨?_, by simp, ?_, by decide⟩
  · unfold downloadCSV
    rw [if_neg]
    simpa [List.length_eq_zero] using h
  · intro v
    simp [csvRow, String.intercalate, String.intercalate.go, String.append_assoc]

/-- A queue with one completed item (whose title contains a double quote)
and one pending item. -/
def csvVids : List VideoMetadata :=
  [{ id := 0, fileName := "clip.mp4", thumbnail := none, status := .completed,
     title := "He said \"hi\"", keywords := ["a", "b"], errorMessage := none },
   mkVideo 1 "skip.mp4"]

theorem downloadCSV_format_witness :
    downloadCSV csvVids
      = some "Filename,Title,Keywords\n\"clip.mp4\",\"He said \"\"hi\"\"\",\"a, b\"" := by
  have h := (downloadCSV_format csvVids (by decide)).1
  rw [h]
  decide

/-! ## C5: two-video drain scenario -/

/-- An environment where the client is configured, extraction succeeds for
every item, and inference always returns title "T" with keywords
["a", "b"]. -/
def envT : Env :=
  { configured := true, extract := fun _ => .ok ["frame"],
    infer := fun _ => .ok ("T", ["a", "b"]) }

/-- C5.  Submitting 2 video files with the client configured, where
extraction succeeds and inference returns title "T" and keywords
["a", "b"] for both: after the queue drains, both items are completed with
that title and those keywords, the cursor equals 2, and `isProcessing` is
false (natural drain flips Running back to Idle). -/
theorem scenario_two_videos_drain :
    ((processQueue envT (submitVideos (initialState false)
        [(0, "a.mp4"), (1, "b.mp4")])).1.videos.map
      fun v => (v.status, v.title, v.keywords))
      = [(.completed, "T", ["a", "b"]), (.completed, "T", ["a", "b"])] ∧
    (processQueue envT (submitVideos (initialState false)
        [(0, "a.mp4"), (1, "b.mp4")])).1.currentIndex = 2 ∧
    (processQueue envT (submitVideos (initialState false)
        [(0, "a.mp4"), (1, "b.mp4")])).1.isProcessing = false := by
  refine ⟨by decide, by decide, by decide⟩

/-! ## C1: frame extraction count, timestamps and seek serialization -/

theorem extractLoop_eq (res : VideoResource) (interval : ℚ) :
    ∀ (n i : Nat),
      extractLoop res interval n i
        = (((List.range n).map fun j =>
              [ExtractEvent.seek (interval * ((i + j : Nat) : ℚ)),
               ExtractEvent.capture (i + j)]).flatten,
           (List.range n).map fun j =>
              res.captureAt (interval * ((i + j : Nat) : ℚ))) := by
  intro n
  induction n with
  | zero => intro i; simp [extractLoop]
  | succ n ih =>
    intro i
    simp only [extractLoop]
    rw [ih (i + 1), List.range_succ_eq_map]
    simp only [List.map_cons, List.flatten_cons, List.map_map,
      Function.comp_def, Nat.add_zero, Nat.add_succ, Nat.succ_add]
    rfl

/-- C1.  For every frame count N ≥ 1 and every resource that loads with
duration D, `extractFrames` returns exactly N still images, and its event
trace is exactly seek(D/(N+1)·1), capture 1, seek(D/(N+1)·2), capture 2,
…, seek(D/(N+1)·N), capture N — the i-th seek at timestamp D/(N+1)·i, in
increasing order of i, with seek i+1 issued only after capture i. -/
theorem extractFrames_count_and_trace (res : VideoResource) (N : Nat)
    (_hN : 1 ≤ N) (hload : res.loadOk = true) :
    extractFrames res N
      = .ok ((((List.range N).map fun j =>
            [ExtractEvent.seek (res.duration / (N + 1) * ((j + 1 : Nat) : ℚ)),
             ExtractEvent.capture (j + 1)]).flatten,
          (List.range N).map fun j =>
            res.captureAt (res.duration / (N + 1) * ((j + 1 : Nat) : ℚ)))) ∧
    ((List.range N).map fun j =>
        res.captureAt (res.duration / (N + 1) * ((j + 1 : Nat) : ℚ))).length
      = N := by
  refine ⟨?_, by simp⟩
  unfold extractFrames
  rw [if_pos hload, extractLoop_eq]
  congr 1
  simp only [Prod.mk.injEq]
  constructor
  · congr 1
    apply List.map_congr_left
    intro j _
    rw [Nat.add_comm]
  · apply List.map_congr_left
    intro j _
    rw [Nat.add_comm]

/-- A loadable resource of duration 6 whose every capture yields "f". -/
def resSix : VideoResource :=
  { loadOk := true, duration := 6, captureAt := fun _ => "f" }

theorem extractFrames_count_and_trace_witness :
    (1 : Nat) ≤ 2 ∧
    extractFrames resSix 2
      = .ok ([ExtractEvent.seek 2, ExtractEvent.capture 1,
              ExtractEvent.seek 4, ExtractEvent.capture 2], ["f", "f"]) := by
  refine ⟨by norm_num, ?_⟩
  have h := (extractFrames_count_and_trace resSix 2 (by norm_num) rfl).1
  rw [h]
  norm_num [resSix, List.range_succ]

/-! ## Unfolding lemmas for the processing loop -/

theorem processQueueLoop_succ_eligible (env : Env) (fuel : Nat) (s : AppState)
    (req : List Nat)
    (h : s.currentIndex < s.videos.length) (hp : s.isProcessing = true)
    (hpa : s.isPaused = false)
    (helig : (s.videos.get ⟨s.currentIndex, h⟩).status = .pending ∨
             (s.videos.get ⟨s.currentIndex, h⟩).status = .failed) :
    processQueueLoop env (fuel + 1) s req
      = processQueueLoop env fuel
          { s with
            videos := stepItem env s.videos (s.videos.get ⟨s.currentIndex, h⟩),
            currentIndex := s.currentIndex + 1 }
          (req ++ [(s.videos.get ⟨s.currentIndex, h⟩).id]) := by
  simp only [processQueueLoop]
  rw [dif_pos ⟨h, by simp [hp], by simp [hpa]⟩]
  rw [if_pos helig]

theorem processQueueLoop_succ_skip (env : Env) (fuel : Nat) (s : AppState)
    (req : List Nat)
    (h : s.currentIndex < s.videos.length) (hp : s.isProcessing = true)
    (hpa : s.isPaused = false)
    (helig : ¬((s.videos.get ⟨s.currentIndex, h⟩).status = .pending ∨
               (s.videos.get ⟨s.currentIndex, h⟩).status = .failed)) :
    processQueueLoop env (fuel + 1) s req
      = processQueueLoop env fuel
          { s with currentIndex := s.currentIndex + 1 } req := by
  simp only [processQueueLoop]
  rw [dif_pos ⟨h, by simp [hp], by simp [hpa]⟩]
  rw [if_neg helig]

theorem processQueueLoop_succ_stop (env : Env) (fuel : Nat) (s : AppState)
    (req : List Nat)
    (hc : ¬(s.currentIndex < s.videos.length ∧ s.isProcessing = true ∧
            ¬s.isPaused = true)) :
    processQueueLoop env (fuel + 1) s req = (s, req) := by
  simp only [processQueueLoop]
  rw [dif_neg hc]

/-! ## C3: per-item failures are caught and traversal continues -/

/-- C3.  If frame extraction or metadata inference fails for the item
visited at the cursor, the failure is caught at the step boundary (the
loop simply continues, with the next iteration applied to the advanced
state — nothing propagates out of the traversal): the item ends with
status failed, errorMessage set to the (non-null) message, title "" and
keywords [], every other item is untouched, and the cursor advances to the
next item. -/
theorem processQueue_failure_recorded (env : Env) (fuel : Nat) (s : AppState)
    (req : List Nat)
    (hlt : s.currentIndex < s.videos.length)
    (hp : s.isProcessing = true) (hpa : s.isPaused = false)
    (v : VideoMetadata) (hv : s.videos.get ⟨s.currentIndex, hlt⟩ = v)
    (helig : v.status = .pending ∨ v.status = .failed)
    (msg : String) (hfail : itemOutcome env v.id = .error msg) :
    processQueueLoop env (fuel + 1) s req
      = processQueueLoop env fuel
          { s with videos := stepItem env s.videos v,
                   currentIndex := s.currentIndex + 1 }
          (req ++ [v.id]) ∧
    (∀ w ∈ stepItem env s.videos v,
      (w.id = v.id → w.status = .failed ∧ w.errorMessage = some msg ∧
        w.title = "" ∧ w.keywords = []) ∧
      (w.id ≠ v.id → w ∈ s.videos)) := by
  subst hv
  refine ⟨processQueueLoop_succ_eligible env fuel s req hlt hp hpa helig, ?_⟩
  intro w hw
  rw [stepItem_eq_map] at hw
  rcases List.mem_map.mp hw with ⟨u, hu, rfl⟩
  by_cases hid : u.id = (s.videos.get ⟨s.currentIndex, hlt⟩).id
  · constructor
    · intro _
      simp only [List.get_eq_getElem] at hfail
      simp [stepFn, hid, hfail]
    · intro hne
      rw [stepFn_id, hid] at hne
      exact absurd rfl hne
  · rw [stepFn_of_ne env _ u hid]
    exact ⟨fun hidq => absurd hidq hid, fun _ => hu⟩

/-- An environment whose frame extraction always fails with the decoder's
load error. -/
def envFail : Env :=
  { configured := true,
    extract := fun _ => .error "Failed to load video file.",
    infer := fun fs => .ok ("T", fs) }

/-- A running state with a single pending item under the cursor. -/
def sPendOne : AppState :=
  { videos := [mkVideo 0 "a.mp4"], isProcessing := true, isPaused := false,
    currentIndex := 0, apiKeyMissing := false }

/-- The single item of `sPendOne` after its failing step. -/
def wAfter : VideoMetadata :=
  { id := 0, fileName := "a.mp4", thumbnail := none, status := .failed,
    title := "", keywords := [],
    errorMessage := some "Failed to load video file." }

/-- The state of `sPendOne` after the failing step, cursor advanced. -/
def sAfterFail : AppState :=
  { videos := [wAfter], isProcessing := true, isPaused := false,
    currentIndex := 1, apiKeyMissing := false }

theorem processQueue_failure_recorded_witness :
    processQueueLoop envFail 1 sPendOne []
      = processQueueLoop envFail 0 sAfterFail [0] ∧
    wAfter.status = .failed ∧
    wAfter.errorMessage = some "Failed to load video file." ∧
    wAfter.title = "" ∧ wAfter.keywords = [] := by
  have h := processQueue_failure_recorded envFail 0 sPendOne []
    (by decide) rfl rfl (mkVideo 0 "a.mp4") rfl (Or.inl rfl)
    "Failed to load video file." rfl
  exact ⟨h.1.trans (by decide), (h.2 wAfter (by decide)).1 rfl⟩

/-! ## C4: retry re-examines only pending/failed, preserves completed items -/

theorem stepItem_map_id (env : Env) (vids : List VideoMetadata)
    (v : VideoMetadata) :
    (stepItem env vids v).map (fun w => w.id) = vids.map fun w => w.id := by
  rw [stepItem_eq_map, List.map_map]
  apply List.map_congr_left
  intro w _
  simp only [Function.comp_apply]
  exact stepFn_id env v.id w

theorem nodup_ids_ne (vids : List VideoMetadata)
    (hnd : (vids.map fun w => w.id).Nodup)
    {i j : Nat} (hi : i < vids.length) (hj : j < vids.length) (hij : i ≠ j) :
    (vids[i]).id ≠ (vids[j]).id := by
  intro hEq
  have hi' : i < (vids.map fun w => w.id).length := by simpa using hi
  have hj' : j < (vids.map fun w => w.id).length := by simpa using hj
  apply hij
  refine (@List.Nodup.getElem_inj_iff _ _ hnd i hi' j hj').mp ?_
  simpa using hEq

theorem loop_preserves_completed (env : Env) :
    ∀ (fuel : Nat) (s : AppState) (req : List Nat) (idx : Nat)
      (w : VideoMetadata),
      (s.videos.map fun x => x.id).Nodup →
      s.videos[idx]? = some w → w.status = .completed →
      (processQueueLoop env fuel s req).1.videos[idx]? = some w ∧
      (w.id ∉ req → w.id ∉ (processQueueLoop env fuel s req).2) := by
  intro fuel
  induction fuel with
  | zero =>
    intro s req idx w _ hw _
    exact ⟨hw, fun h => h⟩
  | succ fuel ih =>
    intro s req idx w hnd hw hc
    rcases List.getElem?_eq_some.mp hw with ⟨hidx, heq⟩
    by_cases hcond : s.currentIndex < s.videos.length ∧ s.isProcessing = true ∧
        ¬s.isPaused = true
    · obtain ⟨h1, h2, h3⟩ := hcond
      have h3' : s.isPaused = false := by simpa using h3
      by_cases helig : (s.videos.get ⟨s.currentIndex, h1⟩).status = .pending ∨
          (s.videos.get ⟨s.currentIndex, h1⟩).status = .failed
      · rw [processQueueLoop_succ_eligible env fuel s req h1 h2 h3' helig]
        have hne : w.id ≠ (s.videos.get ⟨s.currentIndex, h1⟩).id := by
          by_cases hix : idx = s.currentIndex
          · subst hix
            have hwv : w = s.videos.get ⟨s.currentIndex, h1⟩ := heq.symm
            rw [← hwv] at helig
            rcases helig with h | h <;> rw [hc] at h <;> exact absurd h (by simp)
          · simp only [List.get_eq_getElem]
            rw [← heq]
            exact nodup_ids_ne s.videos hnd hidx h1 hix
        have hW' : (stepItem env s.videos
            (s.videos.get ⟨s.currentIndex, h1⟩))[idx]? = some w := by
          rw [stepItem_eq_map, List.getElem?_map, hw]
          exact congrArg some (stepFn_of_ne env _ w hne)
        have hnd' : ((stepItem env s.videos
            (s.videos.get ⟨s.currentIndex, h1⟩)).map fun x => x.id).Nodup := by
          rw [stepItem_map_id]; exact hnd
        have hrec := ih
          { s with videos := stepItem env s.videos
                     (s.videos.get ⟨s.currentIndex, h1⟩),
                   currentIndex := s.currentIndex + 1 }
          (req ++ [(s.videos.get ⟨s.currentIndex, h1⟩).id]) idx w hnd' hW' hc
        refine ⟨hrec.1, fun hreq => hrec.2 ?_⟩
        simp only [List.mem_append, List.mem_singleton]
        rintro (hl | hr)
        · exact hreq hl
        · exact hne hr
      · rw [processQueueLoop_succ_skip env fuel s req h1 h2 h3' helig]
        exact ih { s with currentIndex := s.currentIndex + 1 } req idx w hnd hw hc
    · rw [processQueueLoop_succ_stop env fuel s req hcond]
      exact ⟨hw, fun h => h⟩

theorem loop_requested_eligible (env : Env) :
    ∀ (fuel : Nat) (s : AppState) (req : List Nat) (x : Nat),
      (s.videos.map fun t => t.id).Nodup →
      x ∈ (processQueueLoop env fuel s req).2 →
      x ∈ req ∨ ∃ u : VideoMetadata, ∃ jdx : Nat,
        s.currentIndex ≤ jdx ∧ s.videos[jdx]? = some u ∧ u.id = x ∧
        (u.status = .pending ∨ u.status = .failed) := by
  intro fuel
  induction fuel with
  | zero =>
    intro s req x _ hx
    exact Or.inl hx
  | succ fuel ih =>
    intro s req x hnd hx
    by_cases hcond : s.currentIndex < s.videos.length ∧ s.isProcessing = true ∧
        ¬s.isPaused = true
    · obtain ⟨h1, h2, h3⟩ := hcond
      have h3' : s.isPaused = false := by simpa using h3
      by_cases helig : (s.videos.get ⟨s.currentIndex, h1⟩).status = .pending ∨
          (s.videos.get ⟨s.currentIndex, h1⟩).status = .failed
      · rw [processQueueLoop_succ_eligible env fuel s req h1 h2 h3' helig] at hx
        have hnd' : ((stepItem env s.videos
            (s.videos.get ⟨s.currentIndex, h1⟩)).map fun t => t.id).Nodup := by
          rw [stepItem_map_id]; exact hnd
        rcases ih
            { s with videos := stepItem env s.videos
                       (s.videos.get ⟨s.currentIndex, h1⟩),
                     currentIndex := s.currentIndex + 1 }
            (req ++ [(s.videos.get ⟨s.currentIndex, h1⟩).id]) x hnd' hx with
          hmem | ⟨u, jdx, hcur, hu, hid, hst⟩
        · rcases List.mem_append.mp hmem with hl | hr
          · exact Or.inl hl
          · refine Or.inr ⟨s.videos.get ⟨s.currentIndex, h1⟩, s.currentIndex,
              le_refl _, ?_, (List.mem_singleton.mp hr).symm, helig⟩
            rw [List.getElem?_eq_getElem h1]
            rfl
        · dsimp only at hcur hu
          have hjx : jdx ≠ s.currentIndex := by omega
          rw [stepItem_eq_map, List.getElem?_map] at hu
          rcases Option.map_eq_some'.mp hu with ⟨u0, hu0, hfu⟩
          rcases List.getElem?_eq_some.mp hu0 with ⟨hjlen, hju⟩
          have hne : u0.id ≠ (s.videos.get ⟨s.currentIndex, h1⟩).id := by
            rw [← hju]
            exact nodup_ids_ne s.videos hnd hjlen h1 hjx
          rw [stepFn_of_ne env _ u0 hne] at hfu
          subst hfu
          exact Or.inr ⟨u0, jdx, by omega, hu0, hid, hst⟩
      · rw [processQueueLoop_succ_skip env fuel s req h1 h2 h3' helig] at hx
        rcases ih { s with currentIndex := s.currentIndex + 1 } req x hnd hx with
          hmem | ⟨u, jdx, hcur, hu, hid, hst⟩
        · exact Or.inl hmem
        · dsimp only at hcur hu
          exact Or.inr ⟨u, jdx, by omega, hu, hid, hst⟩
    · rw [processQueueLoop_succ_stop env fuel s req hcond] at hx
      exact Or.inl hx

theorem processQueue_videos_eq (env : Env) (s : AppState) :
    (processQueue env s).1.videos
      = (processQueueLoop env (s.videos.length - s.currentIndex) s []).1.videos := by
  simp only [processQueue]
  split <;> rfl

theorem processQueue_requested_eq (env : Env) (s : AppState) :
    (processQueue env s).2
      = (processQueueLoop env (s.videos.length - s.currentIndex) s []).2 := rfl

/-- C4.  A retry request resets the cursor to 0, and the subsequent
traversal (run under any environment, with pairwise-distinct item ids as
produced by the UUID generator): leaves every item that was completed
before the retry at its exact previous value — same status, title,
keywords, thumbnail and errorMessage — requests no frame extraction or
inference for it, and requests work only for items that were pending or
failed. -/
theorem retry_skips_completed (env : Env) (s : AppState)
    (hkey : s.apiKeyMissing = false)
    (hnd : (s.videos.map fun v => v.id).Nodup)
    (idx : Nat) (w : VideoMetadata)
    (hw : s.videos[idx]? = some w) (hc : w.status = .completed) :
    (retryFailed s).currentIndex = 0 ∧
    (processQueue env (retryFailed s)).1.videos[idx]? = some w ∧
    w.id ∉ (processQueue env (retryFailed s)).2 ∧
    ∀ x ∈ (processQueue env (retryFailed s)).2,
      ∃ u : VideoMetadata, ∃ jdx : Nat, s.videos[jdx]? = some u ∧ u.id = x ∧
        (u.status = .pending ∨ u.status = .failed) := by
  have hr : retryFailed s
      = { s with currentIndex := 0, isProcessing := true, isPaused := false } := by
    simp [retryFailed, startProcessing, hkey]
  have hA := loop_preserves_completed env
    (s.videos.length - 0)
    { s with currentIndex := 0, isProcessing := true, isPaused := false }
    [] idx w hnd hw hc
  refine ⟨by rw [hr], ?_, ?_, ?_⟩
  · rw [hr, processQueue_videos_eq]
    exact hA.1
  · rw [hr, processQueue_requested_eq]
    exact hA.2 (List.not_mem_nil _)
  · intro x hx
    rw [hr, processQueue_requested_eq] at hx
    rcases loop_requested_eligible env (s.videos.length - 0)
        { s with currentIndex := 0, isProcessing := true, isPaused := false }
        [] x hnd hx with hmem | ⟨u, jdx, _, hu, hid, hst⟩
    · exact absurd hmem (List.not_mem_nil _)
    · exact ⟨u, jdx, hu, hid, hst⟩

/-- A completed item (with thumbnail, title, keywords) used by the retry
witness. -/
def wDone : VideoMetadata :=
  { id := 0, fileName := "c.mp4", thumbnail := some "th", status := .completed,
    title := "T", keywords := ["a"], errorMessage := none }

/-- An idle, configured state holding one completed and one failed item,
cursor at end of queue. -/
def sRetry : AppState :=
  { videos := [wDone,
               { id := 1, fileName := "f.mp4", thumbnail := none,
                 status := .failed, title := "", keywords := [],
                 errorMessage := some "e" }],
    isProcessing := false, isPaused := false, currentIndex := 2,
    apiKeyMissing := false }

theorem retry_skips_completed_witness :
    (retryFailed sRetry).currentIndex = 0 ∧
    (processQueue envT (retryFailed sRetry)).1.videos[0]? = some wDone ∧
    wDone.id ∉ (processQueue envT (retryFailed sRetry)).2 := by
  have h := retry_skips_completed envT sRetry rfl (by decide) 0 wDone rfl rfl
  exact ⟨h.1, h.2.1, h.2.2.1⟩


/-! ## C8: field/status invariant over all reachable states -/

/-- The per-item field/status invariant: `errorMessage` is non-null only
when the status is failed, and `title`/`keywords` are non-empty only when
the status is completed (every non-completed item carries title "" and
keywords []). -/
def itemInv (v : VideoMetadata) : Prop :=
  (v.errorMessage ≠ none → v.status = .failed) ∧
  (v.status ≠ .completed → v.title = "" ∧ v.keywords = [])

/-- The invariant holds of every queued item. -/
def stateInv (s : AppState) : Prop :=
  ∀ v ∈ s.videos, itemInv v

/-- States reachable from the component's initial state through its
operations: file submission, start/pause/resume/stop/retry/clear, a full
`processQueue` traversal under any environment, and a successful thumbnail
write. -/
inductive Reachable : AppState → Prop
  | init (missing : Bool) : Reachable (initialState missing)
  | submit {s : AppState} (files : List (Nat × String)) :
      Reachable s → Reachable (submitVideos s files)
  | start {s : AppState} : Reachable s → Reachable (startProcessing s)
  | pause {s : AppState} : Reachable s → Reachable (pauseProcessing s)
  | resume {s : AppState} : Reachable s → Reachable (resumeProcessing s)
  | stop {s : AppState} : Reachable s → Reachable (stopProcessing s)
  | retry {s : AppState} : Reachable s → Reachable (retryFailed s)
  | clear {s : AppState} : Reachable s → Reachable (clearAll s)
  | process {s : AppState} (env : Env) :
      Reachable s → Reachable (processQueue env s).1
  | thumb {s : AppState} (id : Nat) (frame : String) :
      Reachable s → Reachable (setThumbnail s id frame)

theorem startProcessing_videos (s : AppState) :
    (startProcessing s).videos = s.videos := by
  unfold startProcessing
  split <;> rfl

theorem itemInv_stepFn (env : Env) (n : Nat) (v : VideoMetadata)
    (h : itemInv v) : itemInv (stepFn env n v) := by
  unfold stepFn
  by_cases hv : v.id = n
  · rw [if_pos hv]
    cases ho : itemOutcome env n with
    | error msg => exact ⟨fun _ => rfl, fun _ => ⟨rfl, rfl⟩⟩
    | ok r => exact ⟨fun hc => absurd rfl hc, fun hc => absurd rfl hc⟩
  · rw [if_neg hv]
    exact h

theorem loop_preserves_inv (env : Env) :
    ∀ (fuel : Nat) (s : AppState) (req : List Nat),
      stateInv s → stateInv (processQueueLoop env fuel s req).1 := by
  intro fuel
  induction fuel with
  | zero => intro s req h; exact h
  | succ fuel ih =>
    intro s req h
    by_cases hcond : s.currentIndex < s.videos.length ∧ s.isProcessing = true ∧
        ¬s.isPaused = true
    · obtain ⟨h1, h2, h3⟩ := hcond
      have h3' : s.isPaused = false := by simpa using h3
      by_cases helig : (s.videos.get ⟨s.currentIndex, h1⟩).status = .pending ∨
          (s.videos.get ⟨s.currentIndex, h1⟩).status = .failed
      · rw [processQueueLoop_succ_eligible env fuel s req h1 h2 h3' helig]
        apply ih
        intro w hw
        rw [stepItem_eq_map] at hw
        rcases List.mem_map.mp hw with ⟨u, hu, rfl⟩
        exact itemInv_stepFn env _ u (h u hu)
      · rw [processQueueLoop_succ_skip env fuel s req h1 h2 h3' helig]
        exact ih { s with currentIndex := s.currentIndex + 1 } req h
    · rw [processQueueLoop_succ_stop env fuel s req hcond]
      exact h

/-- C8.  In every reachable state, every queued item has `errorMessage`
non-null only if its status is failed, and non-empty `title`/`keywords`
only if its status is completed (pending, processing and failed items
always carry title "" and keywords []); every controller operation —
each constructor of `Reachable` — preserves this, as the induction shows. -/
theorem reachable_state_invariant :
    ∀ s : AppState, Reachable s → stateInv s := by
  intro s h
  induction h with
  | init missing => intro v hv; simp [initialState] at hv
  | @submit s0 files _ ih =>
    intro v hv
    have hvid : (submitVideos s0 files).videos
        = s0.videos ++ files.map fun p => mkVideo p.1 p.2 := by
      unfold submitVideos
      dsimp only
      split
      · rfl
      · rw [startProcessing_videos]
    rw [hvid] at hv
    rcases List.mem_append.mp hv with hl | hr
    · exact ih v hl
    · rcases List.mem_map.mp hr with ⟨p, _, rfl⟩
      exact ⟨fun hc => absurd rfl hc, fun _ => ⟨rfl, rfl⟩⟩
  | start _ ih =>
    intro v hv
    rw [startProcessing_videos] at hv
    exact ih v hv
  | pause _ ih => exact ih
  | resume _ ih => exact ih
  | stop _ ih => exact ih
  | @retry s0 _ ih =>
    intro v hv
    have hvid : (retryFailed s0).videos = s0.videos :=
      startProcessing_videos { s0 with currentIndex := 0 }
    rw [hvid] at hv
    exact ih v hv
  | clear _ ih => intro v hv; simp [clearAll] at hv
  | process env _ ih =>
    intro v hv
    rw [processQueue_videos_eq] at hv
    exact loop_preserves_inv env _ _ [] ih v hv
  | thumb id frame _ ih =>
    intro v hv
    simp only [setThumbnail, List.mem_map] at hv
    rcases hv with ⟨u, hu, rfl⟩
    by_cases hid : u.id = id
    · rw [if_pos hid]
      exact ih u hu
    · rw [if_neg hid]
      exact ih u hu

theorem reachable_state_invariant_witness :
    stateInv (processQueue envFail
      (submitVideos (initialState false) [(0, "a.mp4")])).1 :=
  reachable_state_invariant _
    (Reachable.process envFail (Reachable.submit _ (Reachable.init false)))
